import Mathlib

/-!
Verification of `udpcount.cpp` (passive UDP traffic-rate monitor).

Shallow embedding of the program's data model and operations:
* `metrics<T>` (counter set shared by all backends) with `add_packet`,
  `add_error`, `reset`, `operator+=`;
* the `runner::show_stats` report step (print, then `reset`);
* `socket_runner::update_counters` (truncation heuristic and scratch-buffer
  offset arithmetic);
* `pcap_runner::process_packet` (Ethernet/IPv4/UDP payload computation);
* `pfpacket_runner::process_packet`, `prepare_thread_data`, `run_thread`
  and `run` (ring-buffer backend: per-packet accounting, setup error
  handling, the block-ownership handoff protocol, and the worker/reporter
  process structure).

Counter fields are `std::int64_t` (or `std::atomic<std::int64_t>`); the
realistic counts never approach overflow, so they are embedded as `Int`.
Kernel-facing 32-bit fields (`tp_len`) are embedded as `Nat` with explicit
`% 2^32` where C unsigned wraparound matters.
-/

namespace Udpcount

/-- Embedding of `metrics<T>` (udpcount.cpp lines 100-162): six counters. -/
structure Metrics where
  packets : Int
  bytes : Int
  total_packets : Int
  total_bytes : Int
  truncated : Int
  errors : Int
deriving DecidableEq

/-- `metrics::metrics()` (lines 111-119): all six counters start at zero. -/
def Metrics.init : Metrics :=
  { packets := 0, bytes := 0, total_packets := 0, total_bytes := 0,
    truncated := 0, errors := 0 }

/-- `metrics::add_packet(bytes_transferred, is_truncated)` (lines 121-128):
`truncated += is_truncated; packets++; total_packets++;
bytes += bytes_transferred; total_bytes += bytes_transferred`. -/
def Metrics.add_packet (m : Metrics) (bytes_transferred : Nat)
    (is_truncated : Bool) : Metrics :=
  { m with
    truncated := m.truncated + (if is_truncated then 1 else 0),
    packets := m.packets + 1,
    total_packets := m.total_packets + 1,
    bytes := m.bytes + bytes_transferred,
    total_bytes := m.total_bytes + bytes_transferred }

/-- `metrics::add_error()` (lines 130-133): `errors++`. -/
def Metrics.add_error (m : Metrics) : Metrics :=
  { m with errors := m.errors + 1 }

/-- `metrics::reset()` (lines 135-141): zero the window counters
(`packets`, `bytes`, `errors`, `truncated`), keep the totals. -/
def Metrics.reset (m : Metrics) : Metrics :=
  { m with packets := 0, bytes := 0, errors := 0, truncated := 0 }

/-- `metrics::operator+=` (lines 151-161): field-wise addition of the six
counters of `other` into `this`. -/
def Metrics.merge (m other : Metrics) : Metrics :=
  { packets := m.packets + other.packets,
    bytes := m.bytes + other.bytes,
    total_packets := m.total_packets + other.total_packets,
    total_bytes := m.total_bytes + other.total_bytes,
    truncated := m.truncated + other.truncated,
    errors := m.errors + other.errors }

/-! ### Event traces for the counter lifecycle (claim C1)

A backend feeds `counters` a sequence of `add_packet` / `add_error` calls;
`runner::show_stats` (lines 179-186) prints the counters and then calls
`counters.reset()`.  Only `reset` mutates the counters at a report
boundary, so a report is embedded as the `reset` call. -/

/-- One observable event acting on a backend's `metrics` instance. -/
inductive Event where
  | pkt (size : Nat) (trunc : Bool)
  | fail
  | report
deriving DecidableEq

/-- The effect of one event on the counters: `add_packet`, `add_error`, or
the `reset` performed by `runner::show_stats`. -/
def Metrics.step (m : Metrics) : Event → Metrics
  | .pkt n t => m.add_packet n t
  | .fail => m.add_error
  | .report => m.reset

/-- Run a whole event trace from freshly constructed counters. -/
def applyEvents (es : List Event) : Metrics :=
  es.foldl Metrics.step Metrics.init

/-- Number of `pkt` events in a trace. -/
def numPkts : List Event → Int
  | [] => 0
  | .pkt _ _ :: es => numPkts es + 1
  | .fail :: es => numPkts es
  | .report :: es => numPkts es

/-- Sum of the `pkt` events' sizes in a trace. -/
def sumBytes : List Event → Int
  | [] => 0
  | .pkt n _ :: es => sumBytes es + n
  | .fail :: es => sumBytes es
  | .report :: es => sumBytes es

/-- Number of `fail` events in a trace. -/
def numFails : List Event → Int
  | [] => 0
  | .pkt _ _ :: es => numFails es
  | .fail :: es => numFails es + 1
  | .report :: es => numFails es

/-- Number of `pkt` events flagged truncated in a trace. -/
def numTrunc : List Event → Int
  | [] => 0
  | .pkt _ t :: es => numTrunc es + (if t then 1 else 0)
  | .fail :: es => numTrunc es
  | .report :: es => numTrunc es

/-- The suffix of the trace after its last `report` (the whole trace when no
report occurred). -/
def afterLastReport (es : List Event) : List Event :=
  es.foldl (fun acc e => match e with | .report => [] | _ => acc ++ [e]) []

theorem afterLastReport_append_pkt (es : List Event) (n : Nat) (t : Bool) :
    afterLastReport (es ++ [.pkt n t]) = afterLastReport es ++ [.pkt n t] := by
  simp [afterLastReport, List.foldl_append]

theorem afterLastReport_append_fail (es : List Event) :
    afterLastReport (es ++ [.fail]) = afterLastReport es ++ [.fail] := by
  simp [afterLastReport, List.foldl_append]

theorem afterLastReport_append_report (es : List Event) :
    afterLastReport (es ++ [.report]) = [] := by
  simp [afterLastReport, List.foldl_append]

theorem applyEvents_append (es : List Event) (e : Event) :
    applyEvents (es ++ [e]) = (applyEvents es).step e := by
  simp [applyEvents, List.foldl_append]

theorem numPkts_append (es fs : List Event) :
    numPkts (es ++ fs) = numPkts es + numPkts fs := by
  induction es with
  | nil => simp [numPkts]
  | cons e es ih => cases e <;> simp [numPkts, ih] <;> ring

theorem sumBytes_append (es fs : List Event) :
    sumBytes (es ++ fs) = sumBytes es + sumBytes fs := by
  induction es with
  | nil => simp [sumBytes]
  | cons e es ih => cases e <;> simp [sumBytes, ih] <;> ring

theorem numFails_append (es fs : List Event) :
    numFails (es ++ fs) = numFails es + numFails fs := by
  induction es with
  | nil => simp [numFails]
  | cons e es ih => cases e <;> simp [numFails, ih] <;> ring

theorem numTrunc_append (es fs : List Event) :
    numTrunc (es ++ fs) = numTrunc es + numTrunc fs := by
  induction es with
  | nil => simp [numTrunc]
  | cons e es ih => cases e <;> simp [numTrunc, ih] <;> ring

/-- Main counter invariant: totals count the whole trace, window counters
count the suffix after the last report. -/
theorem applyEvents_spec (es : List Event) :
    (applyEvents es).total_packets = numPkts es ∧
    (applyEvents es).total_bytes = sumBytes es ∧
    (applyEvents es).packets = numPkts (afterLastReport es) ∧
    (applyEvents es).bytes = sumBytes (afterLastReport es) ∧
    (applyEvents es).errors = numFails (afterLastReport es) ∧
    (applyEvents es).truncated = numTrunc (afterLastReport es) := by
  induction es using List.reverseRecOn with
  | nil =>
      simp [applyEvents, afterLastReport, Metrics.init, numPkts, sumBytes,
        numFails, numTrunc]
  | append_singleton es e ih =>
      obtain ⟨h1, h2, h3, h4, h5, h6⟩ := ih
      cases e with
      | pkt n t =>
          simp only [applyEvents_append, afterLastReport_append_pkt,
            numPkts_append, sumBytes_append, numFails_append,
            numTrunc_append, Metrics.step, Metrics.add_packet]
          refine ⟨?_, ?_, ?_, ?_, ?_, ?_⟩ <;>
            simp [h1, h2, h3, h4, h5, h6, numPkts, sumBytes, numFails,
              numTrunc] <;> ring
      | fail =>
          simp only [applyEvents_append, afterLastReport_append_fail,
            numPkts_append, sumBytes_append, numFails_append,
            numTrunc_append, Metrics.step, Metrics.add_error]
          refine ⟨?_, ?_, ?_, ?_, ?_, ?_⟩ <;>
            simp [h1, h2, h3, h4, h5, h6, numPkts, sumBytes, numFails,
              numTrunc]
      | report =>
          simp only [applyEvents_append, afterLastReport_append_report,
            Metrics.step, Metrics.reset]
          refine ⟨?_, ?_, ?_, ?_, ?_, ?_⟩ <;>
            simp [h1, h2, numPkts, sumBytes, numFails, numTrunc,
              numPkts_append, sumBytes_append]

/-- Claim C1: over every event trace, `total_packets` equals the number of
packets fed to `add_packet` and `total_bytes` the sum of their sizes,
regardless of interleaved reports; the window counters (`packets`, `bytes`,
`errors`, `truncated`) equal the counts accumulated since the last report,
and all four are zero immediately after a report (`show_stats` performs the
print and then `reset`). -/
theorem C1_metrics_totals_and_window (es : List Event) :
    ((applyEvents es).total_packets = numPkts es ∧
     (applyEvents es).total_bytes = sumBytes es) ∧
    ((applyEvents es).packets = numPkts (afterLastReport es) ∧
     (applyEvents es).bytes = sumBytes (afterLastReport es) ∧
     (applyEvents es).errors = numFails (afterLastReport es) ∧
     (applyEvents es).truncated = numTrunc (afterLastReport es)) ∧
    ((applyEvents (es ++ [.report])).packets = 0 ∧
     (applyEvents (es ++ [.report])).bytes = 0 ∧
     (applyEvents (es ++ [.report])).errors = 0 ∧
     (applyEvents (es ++ [.report])).truncated = 0) := by
  obtain ⟨h1, h2, h3, h4, h5, h6⟩ := applyEvents_spec es
  refine ⟨⟨h1, h2⟩, ⟨h3, h4, h5, h6⟩, ?_⟩
  simp [applyEvents_append, Metrics.step, Metrics.reset]

/-- Claim C9: `metrics::operator+=` is commutative and associative on every
field, and merging a freshly constructed (all-zero) `metrics` is an identity
operation in either direction. -/
theorem C9_merge_comm_assoc_identity (a b c : Metrics) :
    a.merge b = b.merge a ∧
    (a.merge b).merge c = a.merge (b.merge c) ∧
    a.merge Metrics.init = a ∧
    Metrics.init.merge a = a := by
  refine ⟨?_, ?_, ?_, ?_⟩ <;>
    simp [Metrics.merge, Metrics.init] <;>
    constructorm* _ ∧ _ <;> ring

/-! ### Socket backend (`socket_runner`, claims C7 and C8)

`socket_runner` (lines 189-292) reads each datagram into
`buffer.data() + offset` with request size `packet_size`; the buffer is
constructed with `std::max(opts.packet_size, opts.buffer_size)` bytes
(line 260) and `offset` starts at 0 (line 198).  `update_counters`
(lines 216-224) records the packet and advances the offset. -/

/-- The 64-bit `size_t` value of the C expression `~63` (mask clearing the
low six bits), from `offset = ((offset + 63) & ~63)` on line 221. -/
def NOT_63 : Nat := 2 ^ 64 - 64

/-- State of `socket_runner` touched by `update_counters`: the counters and
the scratch-buffer write offset. -/
structure SocketState where
  counters : Metrics
  offset : Nat
deriving DecidableEq

/-- `socket_runner::update_counters(bytes_transferred)` (lines 216-224):
record the packet with the heuristic truncation flag
`bytes_transferred == packet_size`, then advance `offset` by
`bytes_transferred`, round it up to a cache-line (64-byte) boundary with
`(offset + 63) & ~63`, and wrap it to 0 when
`offset >= buffer.size() - packet_size`.  `bufLen` is `buffer.size()`,
i.e. `max(packet_size, buffer_size)`. -/
def update_counters (packet_size bufLen : Nat) (s : SocketState)
    (bytes_transferred : Nat) : SocketState :=
  let counters := s.counters.add_packet bytes_transferred
    (bytes_transferred == packet_size)
  let off1 := s.offset + bytes_transferred
  let off2 := (off1 + 63) &&& NOT_63
  let off3 := if bufLen - packet_size ≤ off2 then 0 else off2
  { counters := counters, offset := off3 }

/-- Run `update_counters` over a sequence of received lengths, from the
initial state (fresh counters, `offset = 0`, line 198). -/
def runSocket (packet_size bufLen : Nat) (ns : List Nat) : SocketState :=
  ns.foldl (update_counters packet_size bufLen) ⟨Metrics.init, 0⟩

/-- On a 64-bit value, masking with `~63` clears the low six bits,
i.e. rounds down to a multiple of 64. -/
theorem land_NOT_63 (y : Nat) (hy : y < 2 ^ 64) :
    y &&& NOT_63 = 64 * (y / 64) := by
  have hmask : NOT_63 = 2 ^ 6 * (2 ^ 58 - 1) := by norm_num [NOT_63]
  have hq : y / 64 < 2 ^ 58 := by omega
  have hy64 : y = 2 ^ 6 * (y / 64) + y % 64 := by omega
  have h64 : (64 : Nat) * (y / 64) = 2 ^ 6 * (y / 64) := by norm_num
  apply Nat.eq_of_testBit_eq
  intro i
  rw [Nat.testBit_and, hmask, h64, Nat.testBit_mul_pow_two,
    Nat.testBit_mul_pow_two]
  rcases Nat.lt_or_ge i 6 with hi | hi
  · simp [Nat.not_le_of_lt hi]
  · have hylow : y % 64 < 2 ^ 6 := by omega
    have h2 : Nat.testBit y i = Nat.testBit (y / 64) (i - 6) := by
      conv_lhs => rw [hy64]
      rw [Nat.testBit_mul_pow_two_add _ hylow]
      simp [Nat.not_lt_of_le hi]
    rw [Nat.testBit_two_pow_sub_one, h2]
    rcases Nat.lt_or_ge (i - 6) 58 with hj | hj
    · simp [hi, hj]
    · have hz : Nat.testBit (y / 64) (i - 6) = false :=
        Nat.testBit_lt_two_pow
          (Nat.lt_of_lt_of_le hq (Nat.pow_le_pow_right (by norm_num) hj))
      simp [hz]

/-- When the current offset is 64-byte aligned, the rounded advanced offset
`(offset + n + 63) & ~63` equals `offset` plus `n` rounded up to the next
multiple of 64. -/
theorem offset_round_eq (off n : Nat) (hoff : off % 64 = 0)
    (hbound : off + n + 63 < 2 ^ 64) :
    (off + n + 63) &&& NOT_63 = off + 64 * ((n + 63) / 64) := by
  rw [land_NOT_63 _ hbound]
  have hk : off = 64 * (off / 64) := by omega
  rw [hk]
  have : 64 * (off / 64) + n + 63 = 64 * (off / 64) + (n + 63) := by ring
  rw [this, Nat.mul_add_div (by norm_num), Nat.mul_add]

/-- The offset invariant of the socket backend: 64-byte aligned, and a full
`packet_size` read starting at it stays inside the buffer. -/
def OffsetInv (packet_size bufLen off : Nat) : Prop :=
  off % 64 = 0 ∧ off + packet_size ≤ bufLen

/-- One `update_counters` step preserves the offset invariant (received
length is at most the requested `packet_size`, buffer length bounded so
`size_t` arithmetic cannot wrap). -/
theorem update_counters_inv (packet_size bufLen n : Nat) (s : SocketState)
    (hn : n ≤ packet_size) (hbl : bufLen ≤ 2 ^ 62)
    (hinv : OffsetInv packet_size bufLen s.offset) :
    OffsetInv packet_size bufLen
      (update_counters packet_size bufLen s n).offset := by
  obtain ⟨ha, hf⟩ := hinv
  have hbound : s.offset + n + 63 < 2 ^ 64 := by omega
  unfold update_counters OffsetInv
  simp only []
  rw [offset_round_eq _ _ ha hbound]
  split
  · exact ⟨by omega, by omega⟩
  · rename_i hlt
    constructor
    · omega
    · omega

/-- The offset after `update_counters`, written arithmetically: the old
offset advanced by `bytes_transferred` rounded up to the next multiple of
64, wrapped to zero when `buffer.size() - packet_size <= offset`. -/
theorem update_counters_offset_eq (packet_size bufLen n : Nat)
    (s : SocketState) (ha : s.offset % 64 = 0)
    (hb : s.offset + n + 63 < 2 ^ 64) :
    (update_counters packet_size bufLen s n).offset =
      if bufLen - packet_size ≤ s.offset + 64 * ((n + 63) / 64) then 0
      else s.offset + 64 * ((n + 63) / 64) := by
  unfold update_counters
  simp only []
  rw [offset_round_eq _ _ ha hb]

/-- The offset invariant holds after any run of `update_counters` steps
starting from a state satisfying it. -/
theorem foldl_update_counters_inv (packet_size bufLen : Nat)
    (hbl : bufLen ≤ 2 ^ 62) (ns : List Nat) (s : SocketState)
    (hns : ∀ n ∈ ns, n ≤ packet_size)
    (hinv : OffsetInv packet_size bufLen s.offset) :
    OffsetInv packet_size bufLen
      ((ns.foldl (update_counters packet_size bufLen) s)).offset := by
  induction ns generalizing s with
  | nil => exact hinv
  | cons n ns ih =>
      simp only [List.foldl_cons]
      exact ih _ (fun m hm => hns m (List.mem_cons_of_mem _ hm))
        (update_counters_inv packet_size bufLen n s
          (hns n (List.mem_cons_self _ _)) hbl hinv)

/-- Claim C7: every successful read in the socket backend is recorded via
`add_packet` with truncation flag `(bytes_transferred == packet_size)`; in
particular a read of exactly `packet_size` bytes bumps the truncated
counter even though it may not really have been truncated, and a read of
any other size leaves the truncated counter unchanged. -/
theorem C7_socket_truncation_heuristic (packet_size bufLen n : Nat)
    (s : SocketState) :
    (update_counters packet_size bufLen s n).counters =
      s.counters.add_packet n (decide (n = packet_size)) ∧
    (n = packet_size →
      (update_counters packet_size bufLen s n).counters.truncated =
        s.counters.truncated + 1) ∧
    (n ≠ packet_size →
      (update_counters packet_size bufLen s n).counters.truncated =
        s.counters.truncated) := by
  have hbeq : (n == packet_size) = decide (n = packet_size) := by
    by_cases h : n = packet_size <;> simp [h]
  refine ⟨?_, ?_, ?_⟩
  · simp [update_counters, hbeq]
  · intro h
    simp [update_counters, Metrics.add_packet, h]
  · intro h
    simp [update_counters, Metrics.add_packet, h]

/-- Witness for C7 at concrete inputs: a 100-byte read with
`packet_size = 100` is counted truncated, a 50-byte read is not. -/
theorem C7_socket_truncation_heuristic_witness :
    (update_counters 100 200 ⟨Metrics.init, 0⟩ 100).counters.truncated =
      Metrics.init.truncated + 1 ∧
    (update_counters 100 200 ⟨Metrics.init, 0⟩ 50).counters.truncated =
      Metrics.init.truncated :=
  ⟨(C7_socket_truncation_heuristic 100 200 100 ⟨Metrics.init, 0⟩).2.1 rfl,
   (C7_socket_truncation_heuristic 100 200 50 ⟨Metrics.init, 0⟩).2.2
     (by decide)⟩

/-- Claim C8: in the socket backend, starting from offset 0, after each
recorded packet the write offset advances by the received length rounded up
to the next multiple of 64 and wraps to zero when fewer than one max-size
packet of room is left before the buffer end; consequently at every read
the region `[offset, offset + packet_size)` lies inside the scratch buffer
of size `max(packet_size, buffer_size)` and the offset is always 64-byte
aligned. -/
theorem C8_socket_offset_invariant (packet_size buffer_size : Nat)
    (ns : List Nat) (hbl : max packet_size buffer_size ≤ 2 ^ 62)
    (hns : ∀ n ∈ ns, n ≤ packet_size) :
    (∀ k, (runSocket packet_size (max packet_size buffer_size)
        (ns.take k)).offset % 64 = 0 ∧
      (runSocket packet_size (max packet_size buffer_size)
        (ns.take k)).offset + packet_size ≤ max packet_size buffer_size) ∧
    (∀ k, (hk : k < ns.length) →
      (runSocket packet_size (max packet_size buffer_size)
          (ns.take (k + 1))).offset =
        if max packet_size buffer_size - packet_size ≤
            (runSocket packet_size (max packet_size buffer_size)
              (ns.take k)).offset + 64 * ((ns[k] + 63) / 64) then 0
        else (runSocket packet_size (max packet_size buffer_size)
            (ns.take k)).offset + 64 * ((ns[k] + 63) / 64)) := by
  have hinv0 : OffsetInv packet_size (max packet_size buffer_size) 0 :=
    ⟨by norm_num, by simp [Nat.le_max_left]⟩
  have hinv : ∀ k, OffsetInv packet_size (max packet_size buffer_size)
      (runSocket packet_size (max packet_size buffer_size)
        (ns.take k)).offset := by
    intro k
    exact foldl_update_counters_inv _ _ hbl _ _
      (fun n hn => hns n (List.take_subset k ns hn)) hinv0
  constructor
  · exact fun k => hinv k
  · intro k hk
    have hstep : runSocket packet_size (max packet_size buffer_size)
        (ns.take (k + 1)) =
        update_counters packet_size (max packet_size buffer_size)
          (runSocket packet_size (max packet_size buffer_size) (ns.take k))
          ns[k] := by
      unfold runSocket
      rw [List.take_succ, List.getElem?_eq_getElem hk, List.foldl_append]
      rfl
    obtain ⟨ha, hf⟩ := hinv k
    have hb : (runSocket packet_size (max packet_size buffer_size)
        (ns.take k)).offset + ns[k] + 63 < 2 ^ 64 := by
      have h1 : ns[k] ≤ packet_size := hns _ (List.getElem_mem hk)
      have h2 : packet_size ≤ max packet_size buffer_size :=
        Nat.le_max_left _ _
      omega
    rw [hstep, update_counters_offset_eq _ _ _ _ ha hb]

/-- Witness for C8 at a concrete run: `packet_size = 100`,
`buffer_size = 228`, reads of 28 and 36 bytes; the second advance rounds
`64 + 36` up to 128, which leaves only 100 bytes of room, so the offset
wraps to zero. -/
theorem C8_socket_offset_invariant_witness :
    ((runSocket 100 (max 100 228) ([28, 36].take 2)).offset % 64 = 0 ∧
      (runSocket 100 (max 100 228) ([28, 36].take 2)).offset + 100 ≤
        max 100 228) ∧
    (runSocket 100 (max 100 228) ([28, 36].take 2)).offset =
      (if max 100 228 - 100 ≤
          (runSocket 100 (max 100 228) ([28, 36].take 1)).offset +
            64 * (([28, 36][1] + 63) / 64) then 0
       else (runSocket 100 (max 100 228) ([28, 36].take 1)).offset +
         64 * (([28, 36][1] + 63) / 64)) := by
  have h := C8_socket_offset_invariant 100 228 [28, 36] (by norm_num)
    (by intro n hn; fin_cases hn <;> norm_num)
  exact ⟨h.1 2, h.2 1 (by norm_num)⟩

/-! ### Pcap backend (`pcap_runner::process_packet`, claims C6 and C10)

`process_packet` (lines 308-322) takes the kernel-filled `pcap_pkthdr`
(`caplen` = captured length, `len` = wire length, both `bpf_u_int32`) and
the packet bytes.  It flags truncation when `h->len != caplen`, requires
`caplen > 14` (the Ethernet header), computes the IPv4 header length from
the low nibble of the first byte past the Ethernet header, and credits the
rest past a fixed 8-byte UDP header; otherwise nothing is counted. -/

/-- The two length fields of `struct pcap_pkthdr` read by the code. -/
structure PcapPkthdr where
  caplen : Nat
  len : Nat
deriving DecidableEq

/-- `pcap_runner::process_packet(h, bytes)` (lines 308-322).  `bytes` is
the captured frame as a byte list; after `bytes += eth_hsize` the code
reads `bytes[0]`, i.e. byte 14 of the frame. -/
def pcap_process_packet (counters : Metrics) (h : PcapPkthdr)
    (bytes : List Nat) : Metrics :=
  let eth_hsize : Nat := 14
  let len := h.caplen
  let truncated := h.len != len
  if eth_hsize < len then
    let len2 := len - eth_hsize
    let ip_hsize := (bytes.getD eth_hsize 0 &&& 0xf) * 4
    let udp_hsize : Nat := 8
    if ip_hsize + udp_hsize ≤ len2 then
      counters.add_packet (len2 - (ip_hsize + udp_hsize)) truncated
    else counters
  else counters

/-- Claim C6: a fully captured (`caplen = len = 100`) IPv4 packet with
IHL = 5 is credited exactly 100 - 14 - 20 - 8 = 58 payload bytes with the
truncation flag clear; and in general, whenever `process_packet` records a
packet, the truncation flag it passes to `add_packet` is set if and only if
the kernel-recorded wire length `len` differs from the captured length
`caplen`. -/
theorem C6_pcap_payload_and_truncation (m : Metrics) (bytes : List Nat)
    (hihl : bytes.getD 14 0 &&& 0xf = 5) :
    pcap_process_packet m ⟨100, 100⟩ bytes = m.add_packet 58 false ∧
    (∀ (m' : Metrics) (h : PcapPkthdr) (bs : List Nat),
      pcap_process_packet m' h bs = m' ∨
      pcap_process_packet m' h bs =
        m'.add_packet
          (h.caplen - 14 - ((bs.getD 14 0 &&& 0xf) * 4 + 8))
          (decide (h.len ≠ h.caplen))) := by
  constructor
  · have hihl2 : bytes[14]?.getD 0 &&& 0xf = 5 := by
      rw [List.getD_eq_getElem?_getD] at hihl
      exact hihl
    simp [pcap_process_packet, hihl2]
  · intro m' h bs
    unfold pcap_process_packet
    simp only []
    by_cases h14 : (14 : Nat) < h.caplen
    · simp only [if_pos h14]
      by_cases hfit : (bs.getD 14 0 &&& 0xf) * 4 + 8 ≤ h.caplen - 14
      · right
        have hbne : (h.len != h.caplen) = decide (h.len ≠ h.caplen) := by
          by_cases he : h.len = h.caplen <;> simp [he]
        rw [if_pos hfit, hbne]
      · left
        rw [if_neg hfit]
    · left
      rw [if_neg h14]

/-- Witness for C6: concrete frame bytes whose IPv4 version/IHL byte (byte
14) is `0x45`, and a concrete instantiation of the general disjunction. -/
theorem C6_pcap_payload_and_truncation_witness :
    pcap_process_packet Metrics.init ⟨100, 100⟩ (List.replicate 15 0x45) =
      Metrics.init.add_packet 58 false ∧
    (pcap_process_packet Metrics.init ⟨120, 150⟩ (List.replicate 15 0x45)
        = Metrics.init ∨
      pcap_process_packet Metrics.init ⟨120, 150⟩ (List.replicate 15 0x45)
        = Metrics.init.add_packet
            (120 - 14 - (((List.replicate 15 0x45).getD 14 0 &&& 0xf) * 4
              + 8))
            (decide ((150 : Nat) ≠ 120))) := by
  have h := C6_pcap_payload_and_truncation Metrics.init
    (List.replicate 15 0x45) (by decide)
  exact ⟨h.1, h.2 Metrics.init ⟨120, 150⟩ (List.replicate 15 0x45)⟩

/-- Claim C10: `pcap_runner::process_packet` silently ignores every packet
whose captured length is at most 14 bytes, and every packet whose length
past the Ethernet header is smaller than the computed IPv4 header length
(IHL x 4) plus the 8-byte UDP header: in both cases the returned counters
are exactly the input counters (no packet, byte, truncated, or error count
changes). -/
theorem C10_pcap_short_packets_ignored (m : Metrics) (h : PcapPkthdr)
    (bytes : List Nat) :
    (h.caplen ≤ 14 → pcap_process_packet m h bytes = m) ∧
    (h.caplen - 14 < (bytes.getD 14 0 &&& 0xf) * 4 + 8 →
      pcap_process_packet m h bytes = m) := by
  constructor
  · intro hle
    unfold pcap_process_packet
    simp only []
    rw [if_neg (by omega)]
  · intro hshort
    unfold pcap_process_packet
    simp only []
    by_cases h14 : (14 : Nat) < h.caplen
    · rw [if_pos h14, if_neg (by omega)]
    · rw [if_neg h14]

/-- Witness for C10: a 14-byte capture and a 30-byte capture of an IHL = 5
IPv4 frame (30 - 14 = 16 < 20 + 8) both leave the counters untouched. -/
theorem C10_pcap_short_packets_ignored_witness :
    pcap_process_packet Metrics.init ⟨14, 14⟩ (List.replicate 15 0x45) =
      Metrics.init ∧
    pcap_process_packet Metrics.init ⟨30, 30⟩ (List.replicate 15 0x45) =
      Metrics.init :=
  ⟨(C10_pcap_short_packets_ignored Metrics.init ⟨14, 14⟩
      (List.replicate 15 0x45)).1 (by decide),
   (C10_pcap_short_packets_ignored Metrics.init ⟨30, 30⟩
      (List.replicate 15 0x45)).2 (by decide)⟩

/-! ### Ring-buffer backend per-packet accounting
(`pfpacket_runner::process_packet`, claim C3)

`process_packet` (lines 506-518) reads `tp_snaplen`, `tp_len` (both
`__u32`) from the `tpacket3_hdr` and the `h_proto` field of the Ethernet
header at `tp_mac`; when `h_proto` equals IPv4 it credits
`tp_len - ETH_HLEN - sizeof(iphdr) - sizeof(udphdr)` bytes to the
thread-local counters.  `ETH_HLEN = 14`, `sizeof(iphdr) = 20`
(no options), `sizeof(udphdr) = 8`. -/

/-- Fields of one ring frame that `process_packet` reads: the two `__u32`
lengths of `tpacket3_hdr`, and the 16-bit protocol field of the Ethernet
header at `tp_mac`.  The code compares `h_proto` with the fixed constant
`htons(ETH_P_IP)`; byte order is a representation detail of that
comparison, so `h_proto` is carried in host order here. -/
structure RingPacket where
  tp_snaplen : Nat
  tp_len : Nat
  h_proto : Nat
deriving DecidableEq

/-- `ETH_P_IP` (the IPv4 ethertype). -/
def ETH_P_IP : Nat := 0x0800

/-- The byte count fed to `add_packet` on line 516, in C unsigned
arithmetic: `tp_len - 14` wraps as `__u32` (unsigned int), then the
subtractions of `sizeof(iphdr)` and `sizeof(udphdr)` wrap as 64-bit
`size_t`. -/
def ring_payload_bytes (tp_len : Nat) : Nat :=
  let u32 := (tp_len + (2 ^ 32 - 14)) % 2 ^ 32
  let s1 := (u32 + (2 ^ 64 - 20)) % 2 ^ 64
  (s1 + (2 ^ 64 - 8)) % 2 ^ 64

/-- `pfpacket_runner::process_packet(header, local_counters)`
(lines 506-518): flag truncation when `tp_snaplen != tp_len`; if the frame
is IPv4, credit the payload bytes to the thread-local counters, otherwise
do nothing at all. -/
def pfpacket_process_packet (header : RingPacket)
    (local_counters : Metrics) : Metrics :=
  let truncated := header.tp_snaplen != header.tp_len
  if header.h_proto = ETH_P_IP then
    local_counters.add_packet (ring_payload_bytes header.tp_len) truncated
  else
    local_counters

/-- For any frame large enough to hold the three headers (every real
IPv4/UDP frame is at least 42 bytes on the wire), the unsigned arithmetic
computes the exact mathematical difference. -/
theorem ring_payload_bytes_eq (tp_len : Nat) (h42 : 42 ≤ tp_len)
    (h32 : tp_len < 2 ^ 32) :
    ring_payload_bytes tp_len = tp_len - 14 - 20 - 8 := by
  unfold ring_payload_bytes
  simp only []
  have e1 : (tp_len + (2 ^ 32 - 14)) % 2 ^ 32 = tp_len - 14 := by omega
  rw [e1]
  have e2 : (tp_len - 14 + (2 ^ 64 - 20)) % 2 ^ 64 = tp_len - 14 - 20 := by
    have hlt : tp_len - 14 < 2 ^ 64 := by omega
    omega
  rw [e2]
  omega

/-- Claim C3: for every ring frame whose Ethernet protocol field is IPv4,
`process_packet` credits exactly `tp_len - 14 - 20 - 8` bytes to the
thread-local counters via `add_packet`, with the truncation flag set if and
only if `tp_snaplen` differs from `tp_len`; for every frame whose protocol
field is not IPv4, no counter of any kind is changed. -/
theorem C3_ring_process_packet (header : RingPacket)
    (local_counters : Metrics) :
    (header.h_proto = ETH_P_IP → 42 ≤ header.tp_len →
      header.tp_len < 2 ^ 32 →
      pfpacket_process_packet header local_counters =
        local_counters.add_packet (header.tp_len - 14 - 20 - 8)
          (decide (header.tp_snaplen ≠ header.tp_len))) ∧
    (header.h_proto ≠ ETH_P_IP →
      pfpacket_process_packet header local_counters = local_counters) := by
  constructor
  · intro hip h42 h32
    unfold pfpacket_process_packet
    simp only []
    rw [if_pos hip, ring_payload_bytes_eq _ h42 h32]
    have hbne : (header.tp_snaplen != header.tp_len) =
        decide (header.tp_snaplen ≠ header.tp_len) := by
      by_cases he : header.tp_snaplen = header.tp_len <;> simp [he]
    rw [hbne]
  · intro hip
    unfold pfpacket_process_packet
    simp only []
    rw [if_neg hip]

/-- Witness for C3: a fully captured 100-byte IPv4 frame credits 58 bytes
untruncated; an IPv6 frame (`h_proto = 0x86DD`) leaves the counters
untouched. -/
theorem C3_ring_process_packet_witness :
    pfpacket_process_packet ⟨100, 100, 0x0800⟩ Metrics.init =
      Metrics.init.add_packet (100 - 14 - 20 - 8)
        (decide ((100 : Nat) ≠ 100)) ∧
    pfpacket_process_packet ⟨100, 100, 0x86DD⟩ Metrics.init =
      Metrics.init :=
  ⟨(C3_ring_process_packet ⟨100, 100, 0x0800⟩ Metrics.init).1 rfl
      (by norm_num) (by norm_num),
   (C3_ring_process_packet ⟨100, 100, 0x86DD⟩ Metrics.init).2 (by decide)⟩

/-! ### Ring-buffer block-ownership handoff (claim C2)

`pfpacket_runner::run_thread` (lines 538-582) runs one worker against its
own memory-mapped ring of `tp_block_nr` blocks.  Per iteration it reads
`block_status` (behind an acquire fence), polls and re-checks while the
`TP_STATUS_USER` bit is absent, then reads `num_pkts` and walks the packet
headers, merges the thread-local counters into the shared ones, writes
`block_status = TP_STATUS_KERNEL` (before a release fence) and advances the
cursor, wrapping at `tp_block_nr`.

The kernel/worker interleaving is modelled as a transition system.  The
fences themselves are memory-model constructs with no shallow embedding;
they are what justifies modelling the handoff as an interleaving of
well-ordered atomic steps, and the program-order structure they protect
(flag test before content read, content read before flag write-back) is
what the model captures.  The kernel side follows the TPACKET_V3 contract:
it only ever hands blocks over (it sets `TP_STATUS_USER` on a block it
owns and never takes a block back). -/

/-- `TP_STATUS_KERNEL` (0): the kernel owns the block. -/
def TP_STATUS_KERNEL : Nat := 0

/-- `TP_STATUS_USER` (bit 0): user space owns the block. -/
def TP_STATUS_USER : Nat := 1

/-- `tpacket_req3::tp_block_nr` as configured on line 527: `1 << 6`. -/
def tp_block_nr : Nat := 2 ^ 6

/-- One ring block as the worker sees it: the `block_status` word of
`tpacket_hdr_v1` and the packets the kernel placed in the block
(abstracting `num_pkts` and the chained `tpacket3_hdr` frames). -/
structure RingBlock where
  block_status : Nat
  pkts : List RingPacket
deriving DecidableEq

/-- The worker's position inside one iteration of the run loop:
`checkFlag` = about to test `block_status` (lines 556-563), `consume` =
ownership observed, reading the block's packet count and frames
(lines 565-574), `release` = done reading, about to write the status back
and advance (lines 576-580). -/
inductive WorkerPhase where
  | checkFlag
  | consume
  | release
deriving DecidableEq

/-- Joint state of one worker and its ring. `counters` is the shared
`metrics` instance the worker merges into at block granularity. -/
structure RingState where
  blocks : List RingBlock
  next_block : Nat
  phase : WorkerPhase
  counters : Metrics
deriving DecidableEq

/-- The block the worker's pointer arithmetic addresses
(`data.map.ptr + next_block * tp_block_size`, line 555). -/
def blockAt (s : RingState) (i : Nat) : RingBlock :=
  s.blocks.getD i ⟨TP_STATUS_KERNEL, []⟩

/-- The worker's next action, determined by its phase (the loop body of
lines 552-581 split at its three program points). While the status word
lacks `TP_STATUS_USER` the worker only polls and re-checks, leaving the
state unchanged; consuming folds `process_packet` over the block's packets
into a fresh thread-local `metrics` and merges it (lines 565-574);
releasing writes `TP_STATUS_KERNEL` and advances the cursor, wrapping at
`tp_block_nr` (lines 576-580). -/
def worker_step (s : RingState) : RingState :=
  match s.phase with
  | .checkFlag =>
      if (blockAt s s.next_block).block_status &&& TP_STATUS_USER = 0 then
        s
      else
        { s with phase := .consume }
  | .consume =>
      let local_counters := (blockAt s s.next_block).pkts.foldl
        (fun lc p => pfpacket_process_packet p lc) Metrics.init
      { s with counters := s.counters.merge local_counters,
               phase := .release }
  | .release =>
      { s with
        blocks := s.blocks.set s.next_block
          ⟨TP_STATUS_KERNEL, (blockAt s s.next_block).pkts⟩,
        next_block := if s.next_block + 1 = tp_block_nr then 0
          else s.next_block + 1,
        phase := .checkFlag }

/-- Interleaved small-step semantics: either the worker acts, or the kernel
delivers a block — the kernel only touches a block whose status lacks
`TP_STATUS_USER` (a block it still owns), fills it and sets
`TP_STATUS_USER`. -/
inductive Step : RingState → RingState → Prop where
  | worker (s : RingState) : Step s (worker_step s)
  | kernel (s : RingState) (i : Nat) (pkts : List RingPacket) :
      i < tp_block_nr →
      (blockAt s i).block_status &&& TP_STATUS_USER = 0 →
      Step s { s with blocks := s.blocks.set i ⟨TP_STATUS_USER, pkts⟩ }

/-- Start of `run_thread`: `next_block = 0` (line 547), every block still
kernel-owned, counters fresh. -/
def ringInit : RingState :=
  { blocks := List.replicate tp_block_nr ⟨TP_STATUS_KERNEL, []⟩,
    next_block := 0, phase := .checkFlag, counters := Metrics.init }

/-- States the worker/kernel system can actually be in. -/
inductive Reachable : RingState → Prop where
  | init : Reachable ringInit
  | step {s s' : RingState} : Reachable s → Step s s' → Reachable s'

/-- The handoff invariant: the cursor is in range, and whenever the worker
is past the flag check but has not yet released the block (reading its
packet count, headers and data), the block's status carries
`TP_STATUS_USER`. -/
def RingInv (s : RingState) : Prop :=
  s.blocks.length = tp_block_nr ∧
  s.next_block < tp_block_nr ∧
  ((s.phase = .consume ∨ s.phase = .release) →
    (blockAt s s.next_block).block_status &&& TP_STATUS_USER ≠ 0)

theorem getD_set_ne (l : List RingBlock) (i j : Nat) (b d : RingBlock)
    (h : i ≠ j) : (l.set i b).getD j d = l.getD j d := by
  simp [List.getD_eq_getElem?_getD, List.getElem?_set_ne h]

theorem ringInv_init : RingInv ringInit := by
  refine ⟨by simp [ringInit], by norm_num [ringInit, tp_block_nr], ?_⟩
  rintro (h | h) <;> simp [ringInit] at h

theorem ringInv_step (s s' : RingState) (hinv : RingInv s)
    (hstep : Step s s') : RingInv s' := by
  obtain ⟨hlen, hnb, hflag⟩ := hinv
  cases hstep with
  | worker =>
      cases hph : s.phase with
      | checkFlag =>
          simp only [worker_step, hph]
          split
          · exact ⟨hlen, hnb, hflag⟩
          · rename_i huser
            exact ⟨hlen, hnb, fun _ => huser⟩
      | consume =>
          simp only [worker_step, hph]
          exact ⟨hlen, hnb, fun _ => hflag (Or.inl hph)⟩
      | release =>
          simp only [worker_step, hph]
          refine ⟨by simpa using hlen, ?_, ?_⟩
          · show (if s.next_block + 1 = tp_block_nr then 0
              else s.next_block + 1) < tp_block_nr
            split
            · norm_num [tp_block_nr]
            · omega
          · rintro (h | h) <;> simp at h
  | kernel i pkts hi huser =>
      refine ⟨by simpa using hlen, hnb, ?_⟩
      intro hph
      have hne : i ≠ s.next_block := by
        intro he
        exact hflag hph (he ▸ huser)
      have : blockAt { s with blocks := s.blocks.set i ⟨TP_STATUS_USER, pkts⟩ }
          s.next_block = blockAt s s.next_block := by
        unfold blockAt
        exact getD_set_ne _ _ _ _ _ hne
      rw [this]
      exact hflag hph

theorem reachable_inv (s : RingState) (hs : Reachable s) : RingInv s := by
  induction hs with
  | init => exact ringInv_init
  | step _ hstep ih => exact ringInv_step _ _ ih hstep

/-- Claim C2: in every reachable state of the worker/kernel system, the
block cursor stays below `tp_block_nr`; the worker reads a block's packet
count, headers and data (the `consume` action) only while the block's
status carries `TP_STATUS_USER`; while the status lacks `TP_STATUS_USER`
the worker's step is a pure wait (poll and re-check, no state change); and
once done with a block the worker's release step always writes the status
back to `TP_STATUS_KERNEL` and advances the cursor, wrapping at the block
count. -/
theorem C2_ring_handoff_protocol (s : RingState) (hs : Reachable s) :
    s.next_block < tp_block_nr ∧
    (s.phase = .consume →
      (blockAt s s.next_block).block_status &&& TP_STATUS_USER ≠ 0) ∧
    (s.phase = .checkFlag →
      (blockAt s s.next_block).block_status &&& TP_STATUS_USER = 0 →
      worker_step s = s) ∧
    (s.phase = .release →
      (blockAt (worker_step s) s.next_block).block_status =
        TP_STATUS_KERNEL ∧
      (worker_step s).next_block =
        (if s.next_block + 1 = tp_block_nr then 0 else s.next_block + 1) ∧
      (worker_step s).phase = .checkFlag) := by
  obtain ⟨hlen, hnb, hflag⟩ := reachable_inv s hs
  refine ⟨hnb, fun hph => hflag (Or.inl hph), ?_, ?_⟩
  · intro hph huser
    simp only [worker_step, hph]
    rw [if_pos huser]
  · intro hph
    refine ⟨?_, ?_, ?_⟩
    · simp only [worker_step, hph]
      unfold blockAt
      have hlt : s.next_block < s.blocks.length := by omega
      simp [List.getD_eq_getElem?_getD, List.getElem?_set_self hlt]
    · simp [worker_step, hph]
    · simp [worker_step, hph]

/-- A concrete IPv4 packet for the witness run. -/
def demoPkt : RingPacket := ⟨100, 100, 0x0800⟩

/-- The state after the kernel hands block 0 (holding one packet) to user
space. -/
def ringS1 : RingState :=
  { ringInit with
    blocks := ringInit.blocks.set 0 ⟨TP_STATUS_USER, [demoPkt]⟩ }

/-- The state after the worker then observes the `TP_STATUS_USER` flag. -/
def ringS2 : RingState := worker_step ringS1

/-- Witness for C2: the three-step run kernel-fill, flag-check is a
reachable state in the `consume` phase, and the theorem instantiated there
shows the block being read is user-owned. -/
theorem C2_ring_handoff_protocol_witness :
    ringS2.phase = WorkerPhase.consume ∧
    (blockAt ringS2 ringS2.next_block).block_status &&&
      TP_STATUS_USER ≠ 0 := by
  have hreach : Reachable ringS2 :=
    Reachable.step
      (Reachable.step Reachable.init
        (Step.kernel ringInit 0 [demoPkt] (by norm_num [tp_block_nr])
          (by decide)))
      (Step.worker ringS1)
  exact ⟨by decide, (C2_ring_handoff_protocol ringS2 hreach).2.1 (by decide)⟩

/-! ### Worker poll failure and process structure (claim C4)

In `run_thread` (lines 552-581) the only suspension point is
`poll(&pfd, 1, -1)`; a negative return throws via `throw_errno` (line 561),
which propagates out of `run_thread` and ends the worker.  The workers are
started in `pfpacket_runner::run` (lines 584-601) with
`std::async(std::launch::async, call)`; each returned `std::future` is
pushed into a local vector and `run` then enters `while (true) { now += 1s;
sleep_until(now); show_stats(now); }` — it never calls `get()` on any
future, so an exception stored by a worker is never rethrown and never
reaches the `try`/`catch` in `main` (lines 604-635). -/

/-- Cursor and merged counters of one worker thread. -/
structure WorkerState where
  next_block : Nat
  counters : Metrics
deriving DecidableEq

/-- What the worker observes at its next interaction with the kernel:
a user-owned block carrying these packets, a `poll` return `>= 0`
(woken, flag still to be re-checked), or a `poll` return `< 0`. -/
inductive WorkerEvent where
  | blockReady (pkts : List RingPacket)
  | pollOk
  | pollFail
deriving DecidableEq

/-- `run_thread`'s loop (lines 552-581) over a finite trace of observed
events: a ready block is consumed (thread-local counters folded with
`process_packet`, merged, cursor advanced with wrap), a clean poll wake
re-checks, and a failing poll throws (`throw_errno`, line 561) — the
remaining events are never looked at. -/
def run_thread_events : List WorkerEvent → WorkerState →
    Except Unit WorkerState
  | [], s => .ok s
  | .blockReady pkts :: es, s =>
      let local_counters := pkts.foldl
        (fun lc p => pfpacket_process_packet p lc) Metrics.init
      let nb := s.next_block + 1
      run_thread_events es
        ⟨if nb = tp_block_nr then 0 else nb,
          s.counters.merge local_counters⟩
  | .pollOk :: es, s => run_thread_events es s
  | .pollFail :: _, _ => .error ()

/-- Observable status of the process while `pfpacket_runner::run` is
active: the main thread inside the reporting loop (counting completed
iterations), or exited with a code. -/
inductive ProcPhase where
  | looping (reports : Nat)
  | exited (code : Nat)
deriving DecidableEq

/-- One iteration of the `while (true)` loop of `run` (lines 595-600):
sleep until the next deadline, `show_stats`.  The worker results — the
values stored inside the futures pushed on line 591 — are carried as a
parameter to make explicit that no statement of the loop reads them: the
loop body contains no `future::get` and no exit path, so from `looping`
the only successor is `looping`. -/
def proc_step (workerResults : List (Except Unit WorkerState)) :
    ProcPhase → ProcPhase
  | .looping r => .looping (r + 1)
  | .exited c => .exited c

/-- The process state after `n` iterations of `run`'s reporting loop. -/
def proc_run (workerResults : List (Except Unit WorkerState)) :
    Nat → ProcPhase
  | 0 => .looping 0
  | n + 1 => proc_step workerResults (proc_run workerResults n)

theorem proc_run_looping (ws : List (Except Unit WorkerState)) (n : Nat) :
    proc_run ws n = .looping n := by
  induction n with
  | zero => rfl
  | succ n ih => simp [proc_run, ih, proc_step]

/-- Claim C4 as stated: if a worker's readiness wait fails, the whole
process terminates as a fatal error with exit code 1. -/
def pollFailureTerminatesProcess (es : List WorkerEvent)
    (s : WorkerState) : Prop :=
  run_thread_events es s = .error () →
  ∃ n, proc_run [run_thread_events es s] n = .exited 1

/-- Counterexample to C4 as stated: with a single worker whose very first
poll fails, the worker's exception is stored in its never-inspected future
and the reporting loop keeps running — no iteration count ever reaches an
exited state. -/
theorem C4_poll_failure_counterexample :
    ¬ pollFailureTerminatesProcess [WorkerEvent.pollFail]
      ⟨0, Metrics.init⟩ := by
  intro h
  obtain ⟨n, hn⟩ := h rfl
  rw [proc_run_looping] at hn
  exact ProcPhase.noConfusion hn

/-- Claim C4 amended: a failing poll makes the worker throw immediately —
the failure is not retried and the worker processes nothing further (the
remaining trace is never consumed) — but the process does not terminate:
the worker's exception is stored in a future that `run` never queries, and
the main reporting loop is still looping after every number of
iterations. -/
theorem C4_poll_failure_kills_worker_not_process (es : List WorkerEvent)
    (s : WorkerState) (n : Nat) :
    run_thread_events (WorkerEvent.pollFail :: es) s = .error () ∧
    proc_run [run_thread_events (WorkerEvent.pollFail :: es) s] n =
      .looping n :=
  ⟨rfl, proc_run_looping _ n⟩

/-! ### Ring-buffer setup error handling (claim C5)

`prepare_thread_data` (lines 458-504) performs, in order: `socket`,
(`ioctl(SIOCGIFINDEX)` and `bind`, only when an interface was named),
`setsockopt(PACKET_FANOUT)`, `setsockopt(PACKET_VERSION)`,
`setsockopt(PACKET_RX_RING)`, and `mmap`.  Each status is checked and a
negative one raises `throw_errno()` (lines 61-64), a `std::system_error`
carrying `errno`.  The `mmap` result, however, is compared against `NULL`
(line 500), while `mmap` reports failure by returning `MAP_FAILED`
(`(void *)-1`) — so a failed mapping passes the check. -/

/-- `tpacket_req3::tp_block_size` as configured on line 525: `1 << 22`. -/
def tp_block_size : Nat := 2 ^ 22

/-- `MAP_FAILED`, the value `mmap` returns on failure, as an integer
pointer value. -/
def MAP_FAILED : Int := -1

/-- Results handed back by the kernel for each system call
`prepare_thread_data` makes.  `mmap_ret` is the returned pointer as an
integer (`0` = `NULL`). -/
structure SetupEnv where
  socket_ret : Int
  ioctl_ret : Int
  bind_ret : Int
  fanout_ret : Int
  version_ret : Int
  rx_ring_ret : Int
  mmap_ret : Int
deriving DecidableEq

/-- The fields of `thread_data_t` filled in by `prepare_thread_data`. -/
structure ThreadData where
  fd : Int
  map_ptr : Int
  map_length : Nat
deriving DecidableEq

/-- `pfpacket_runner::prepare_thread_data` (lines 458-504), with the
syscall outcomes supplied by `env`; an `error` is the `std::system_error`
thrown by `throw_errno`.  The interface branch (lines 467-483) runs only
when `opts.pcap_interface != ""`.  The final test mirrors line 500
literally: the mapping is rejected only when the returned pointer is
`NULL`. -/
def prepare_thread_data (has_interface : Bool) (env : SetupEnv) :
    Except Unit ThreadData :=
  if env.socket_ret < 0 then .error ()
  else if has_interface && decide (env.ioctl_ret < 0) then .error ()
  else if has_interface && decide (env.bind_ret < 0) then .error ()
  else if env.fanout_ret < 0 then .error ()
  else if env.version_ret < 0 then .error ()
  else if env.rx_ring_ret < 0 then .error ()
  else if env.mmap_ret = 0 then .error ()
  else .ok ⟨env.socket_ret, env.mmap_ret, tp_block_size * tp_block_nr⟩

/-- A run in which every system call succeeds (`fd = 3`, mapping at an
arbitrary nonzero address). -/
def setupOkEnv : SetupEnv := ⟨3, 0, 0, 0, 0, 0, 0x7f00⟩

/-- Claim C5, checked step by step: each of socket creation, interface
lookup, bind, fan-out join, version selection and ring installation aborts
setup with the originating system error when it fails, and an all-success
run yields the file descriptor and mapping; but a failed `mmap` — which
returns `MAP_FAILED`, not `NULL` — slips through the `NULL` check on line
500, so setup reports success with `MAP_FAILED` as the mapped pointer
instead of surfacing the error the claim (and the code's own intent)
requires. -/
theorem C5_setup_error_handling :
    prepare_thread_data true { setupOkEnv with socket_ret := -1 } =
      .error () ∧
    prepare_thread_data true { setupOkEnv with ioctl_ret := -1 } =
      .error () ∧
    prepare_thread_data true { setupOkEnv with bind_ret := -1 } =
      .error () ∧
    prepare_thread_data true { setupOkEnv with fanout_ret := -1 } =
      .error () ∧
    prepare_thread_data false { setupOkEnv with fanout_ret := -1 } =
      .error () ∧
    prepare_thread_data true { setupOkEnv with version_ret := -1 } =
      .error () ∧
    prepare_thread_data true { setupOkEnv with rx_ring_ret := -1 } =
      .error () ∧
    prepare_thread_data true setupOkEnv =
      .ok ⟨3, 0x7f00, tp_block_size * tp_block_nr⟩ ∧
    prepare_thread_data true { setupOkEnv with mmap_ret := MAP_FAILED } =
      .ok ⟨3, MAP_FAILED, tp_block_size * tp_block_nr⟩ := by
  refine ⟨?_, ?_, ?_, ?_, ?_, ?_, ?_, ?_, ?_⟩ <;> rfl

end Udpcount
